import Mathlib

/-!
Verification of the Black Flag actor derivation pipeline
(`src/system/documents/actor.mjs`) against its specification.

The JavaScript source is shallowly embedded:

* JS objects become Lean structures; fields that may be `undefined` become
  `Option` fields.
* JS arrays, Foundry `Set`s (insertion-ordered, identity-keyed) and Foundry
  `Collection`s (id-keyed insertion-ordered maps) become Lean lists; since the
  pipeline only ever inserts freshly created objects into its sets, two
  structurally equal entries are distinct set members, which the list model
  preserves.  The single JS value `undefined` is the one exception: all
  `undefined` members of a set collapse, which `jsSetAdd` models.
* `Array.prototype.sort` with an `a.label.localeCompare(b.label)` comparator is
  modelled as a stable insertion sort on the label; `localeCompare` itself is
  modelled by the lexicographic order on `String` (locale-dependent collation
  is outside the embedding). JS `sort` moves `undefined` elements to the end
  of the array without invoking the comparator, which `finalize` models.
* Code that can throw a `TypeError` is modelled in `Option`
  (`none` = exception); code that merely logs keeps running.
* `Math.floor` on halves of integers is `Int.fdiv · 2`; `Math.round` of the
  non-negative rational `n / 1000` is `(n + 500) / 1000` in `Nat`.
-/

namespace BlackFlag

/-! ## Rule Catalog (CONFIG.SYSTEM lookup tables) -/

/-- One entry of a Rule Catalog category table (e.g. `CONFIG.SYSTEM.PROFICIENCY_TYPES[key]`). -/
structure CatalogEntry where
  label : String
  deriving Repr, DecidableEq

/-- A catalog category table: ordered key/entry pairs (a JS object used as a map). -/
abbrev Catalog := List (String × CatalogEntry)

/-- `types[key]` — property access on a catalog table, `none` = `undefined`. -/
def lookupCat (c : Catalog) (k : String) : Option CatalogEntry :=
  (c.find? (fun e => e.1 == k)).map (·.2)

/-- `CONFIG.SYSTEM[name]` for builder `valuesType` categories. -/
def lookupTable (tables : List (String × Catalog)) (name : String) : Option Catalog :=
  (tables.find? (fun e => e.1 == name)).map (·.2)

/-! ## 4.1 Ability Modifier Deriver (`prepareAbilityScoreMods`) -/

/-- Derived ability score: `{ value: abl, mod: Math.floor((abl - 10) / 2) }`. -/
structure AbilityScore where
  value : Int
  mod : Int
  deriving Repr, DecidableEq

/-- `prepareAbilityScoreMods`: for each ability entry replace the raw integer by
`{ value, mod }`.  `Math.floor((abl - 10) / 2)` on an integer `abl` is the
floor division `Int.fdiv (abl - 10) 2`. -/
def prepareAbilityScoreMods (abilities : List (String × Int)) : List (String × AbilityScore) :=
  abilities.map (fun p => (p.1, { value := p.2, mod := Int.fdiv (p.2 - 10) 2 }))

/-! ## 4.2 Foreign Document Resolver (`loadForeignDocuments`) -/

/-- An external content document as far as the pipeline reads it:
`{ _id/id, name, type }`. -/
structure Doc where
  id : String
  name : String
  dtype : String
  deriving Repr, DecidableEq

/-- A pack index record `{ _id, type }`. -/
structure IndexEntry where
  id : String
  itype : String
  deriving Repr, DecidableEq

/-- A content package: `pack.metadata.type`, `pack.index`, and the id-indexed
documents `pack.getDocument` resolves (`none` = absent / failed fetch). -/
structure Pack where
  ptype : String
  index : List IndexEntry
  contents : List (String × Doc)
  deriving Repr, DecidableEq

/-- The Document Provider: `game.collections` (keyed by document type) and
`game.packs`. -/
structure DocProvider where
  collections : List (String × List Doc)
  packs : List Pack
  deriving Repr, DecidableEq

/-- `game.collections.get(type).filter(d => d.type === subtype)`. -/
def localDocs (prov : DocProvider) (ptype subtype : String) : List Doc :=
  (((prov.collections.find? (fun e => e.1 == ptype)).map (·.2)).getD []).filter
    (fun d => d.dtype == subtype)

/-- One pack's contribution: the ids of its index entries matching the subtype
are each fetched (`pack.getDocument(id)`, one fetch per id regardless of the
result); only truthy results are pushed. Returns the docs and the fetch count. -/
def packDocs (p : Pack) (subtype : String) : List Doc × Nat :=
  let ids := (p.index.filter (fun e => e.itype == subtype)).map IndexEntry.id
  (ids.filterMap (fun i => (p.contents.find? (fun e => e.1 == i)).map (·.2)), ids.length)

/-- The `docs` array of `getForeignDocuments` right before the dedupe-and-sort
step: local collection hits followed by every matching pack's fetched docs,
plus the total number of `getDocument` fetches performed. -/
def gatherDocs (prov : DocProvider) (ptype subtype : String) : List Doc × Nat :=
  prov.packs.foldl
    (fun acc p =>
      if p.ptype == ptype then
        (acc.1 ++ (packDocs p subtype).1, acc.2 + (packDocs p subtype).2)
      else acc)
    (localDocs prov ptype subtype, 0)

/-- Lexicographic comparison of character lists by code point: the model of a
`localeCompare(...) ≤ 0` comparator (locale-dependent collation is outside
the embedding). -/
def charListLE : List Char → List Char → Bool
  | [], _ => true
  | _ :: _, [] => false
  | a :: as, b :: bs =>
    if a.toNat < b.toNat then true
    else if b.toNat < a.toNat then false
    else charListLE as bs

/-- String comparison via `charListLE`. -/
def strLE (a b : String) : Bool := charListLE a.toList b.toList

/-- The comparator `(a, b) => a.name.localeCompare(b.name)` as an order on
documents. -/
def nameLE (a b : Doc) : Prop := strLE a.name b.name = true

instance : DecidableRel nameLE :=
  fun a b => inferInstanceAs (Decidable (strLE a.name b.name = true))

/-- `collection.set(d.id, d)` on a Foundry `Collection` (an insertion-ordered
map keyed by id): replacing an existing key keeps its position and takes the
new value, a new key is appended at the end. -/
def mapSet (m : List Doc) (d : Doc) : List Doc :=
  if m.any (fun e => e.id == d.id) then m.map (fun e => if e.id == d.id then d else e)
  else m ++ [d]

/-- `getForeignDocuments(type, subtype)`: gather local and pack docs, dedupe
and sort alphabetically, and key the result by id in a `Collection`.  The JS
`Array.from(new Set(docs))` step dedupes by object reference; every reference
pushed into `docs` is distinct unless it denotes the very same (hence
value-equal) document, and value-equal duplicates are collapsed by the
id-keyed `Collection` anyway, so the step is modelled as the identity — the
resulting value sequence is unchanged.  Returns the collection's values in
iteration order plus the fetch count. -/
def getForeignDocuments (prov : DocProvider) (ptype subtype : String) : List Doc × Nat :=
  let g := gatherDocs prov ptype subtype
  ((g.1.insertionSort nameLE).foldl mapSet [], g.2)

/-- The process-wide catalog cache `CONFIG.SYSTEM.*_DOCUMENTS`. -/
structure Cache where
  lineage : List Doc
  heritage : List Doc
  background : List Doc
  talent : List Doc
  classDocs : List Doc
  deriving Repr, DecidableEq

/-- `loadForeignDocuments`: rebuild all five cached collections; also counts
every pack fetch performed. -/
def loadForeignDocuments (prov : DocProvider) : Cache × Nat :=
  let l := getForeignDocuments prov "Item" "lineage"
  let h := getForeignDocuments prov "Item" "heritage"
  let b := getForeignDocuments prov "Item" "background"
  let t := getForeignDocuments prov "Item" "talent"
  let c := getForeignDocuments prov "Item" "class"
  (⟨l.1, h.1, b.1, t.1, c.1⟩, l.2 + h.2 + b.2 + t.2 + c.2)

/-- The catalog step at the top of `prepareForeignDocumentData`: reload the
whole cache iff `CONFIG.SYSTEM.BACKGROUND_DOCUMENTS.size === 0`, otherwise
leave it untouched with zero fetches. -/
def catalogStep (prov : DocProvider) (cache : Cache) : Cache × Nat :=
  if cache.background.length == 0 then loadForeignDocuments prov else (cache, 0)

/-! ## 4.3 Trait & Choice Reconciler (`prepareForeignDocumentData`, lines 141-153) -/

/-- A trait's `innate` lists of category keys. -/
structure Innate where
  proficiencies : List String := []
  resistances : List String := []
  languages : List String := []
  saveAdvantages : List String := []
  deriving Repr, DecidableEq

/-- One entry of `builderInfo.options`:
`{ amount?, values?, valuesType?, category?, label? }`. -/
structure BuilderOption where
  amount : Option Nat := none
  values : Option (List String) := none
  valuesType : Option String := none
  category : Option String := none
  label : Option String := none
  deriving Repr, DecidableEq

/-- `builderInfo`: `{ mode?, options? }`. `options := none` models an absent
or otherwise falsy `options`; `options := some l` models a present object with
entries `l` (in particular `some []` is the truthy empty object `{}`). -/
structure BuilderInfo where
  mode : Option String := none
  options : Option (List (String × BuilderOption)) := none
  deriving Repr, DecidableEq

/-- A `ChoiceSlot` of a TraitChoice's `choices` array.  `chosenValues` is a
Foundry Set of value keys, modelled as its insertion-ordered element list. -/
structure ChoiceSlot where
  key : String
  label : String
  category : Option String := none
  options : List String := []
  chosenValues : List String := []
  amount : Nat := 1
  deriving Repr, DecidableEq

/-- A character-attached Trait: a duplicated template stamped with
`source`/`sourceId`/`color`. -/
structure Trait where
  id : Option String := none
  name : String := ""
  source : String := ""
  sourceId : String := ""
  color : Option String := none
  innate : Innate := {}
  builderInfo : Option BuilderInfo := none
  deriving Repr, DecidableEq

/-- A persisted TraitChoice record: a duplicated Trait plus
`{ choices, choicesFulfilled }`. -/
structure TraitChoice extends Trait where
  choices : List ChoiceSlot := []
  choicesFulfilled : Bool := false
  deriving Repr, DecidableEq

/-- JS truthiness of an id: `!trait.id` is true for a missing id and for the
empty string. -/
def truthyId : Option String → Bool
  | some s => s != ""
  | none => false

/-- `mergeObject(duplicate(trait), { choices: [], choicesFulfilled: false })`. -/
def mkChoice (t : Trait) : TraitChoice :=
  { toTrait := t, choices := [], choicesFulfilled := false }

/-- Lines 142-150: for every current Trait with a truthy `id` that has no
TraitChoice with the same `id` yet, append a fresh TraitChoice. -/
def addMissingChoices (choices : List TraitChoice) (traits : List Trait) : List TraitChoice :=
  traits.foldl
    (fun acc t =>
      if truthyId t.id then
        if acc.any (fun c => c.id == t.id) then acc else acc ++ [mkChoice t]
      else acc)
    choices

/-- Lines 141-153: add missing TraitChoices, then filter out every TraitChoice
whose `id` no current Trait carries. -/
def reconcileTraitChoices (traits : List Trait) (choices : List TraitChoice) :
    List TraitChoice :=
  (addMissingChoices choices traits).filter (fun c => traits.any (fun t => t.id == c.id))

/-! ## 4.4 Choice Fulfillment Evaluator (`prepareCharacterBuilderData`) -/

/-- Replace the first slot whose `key` matches (the slot
`trait.choices.find(c => c.key === key)` mutates in place). -/
def updateFirst (l : List ChoiceSlot) (k : String) (f : ChoiceSlot → ChoiceSlot) :
    List ChoiceSlot :=
  match l with
  | [] => []
  | c :: cs => if c.key == k then f c :: cs else c :: updateFirst cs k f

/-- Lines 201-206: refresh a found slot's `label`/`category`/`options`/`amount`
from the current configuration, preserving `key` and `chosenValues`. -/
def refreshSlot (kv : String × BuilderOption) (values : List String) (amount : Nat)
    (c : ChoiceSlot) : ChoiceSlot :=
  { c with label := kv.2.label.getD kv.1, category := kv.2.category,
           options := values, amount := amount }

/-- Lines 191-198: the candidate value list — explicit `values` (defaulted to
`[]`) or, when `valuesType` is truthy and no explicit values are given, all
keys of `CONFIG.SYSTEM[valuesType]`; `none` models the `continue` that skips
the option when no such category exists. -/
def resolveValues (tables : List (String × Catalog)) (o : BuilderOption) :
    Option (List String) :=
  if truthyId o.valuesType && (o.values.getD []).isEmpty then
    (lookupTable tables (o.valuesType.getD "")).map
      (fun cat => (o.values.getD []) ++ cat.map Prod.fst)
  else some (o.values.getD [])

/-- One iteration of the options loop (lines 187-219): default the amount to 1,
resolve the candidate values (skipping the option entirely when unresolvable);
then refresh the existing slot found by `key` — counting it toward
`choicesMade` iff `chosenValues.size === amount` — or push a fresh slot with
empty `chosenValues` (which is not counted). -/
def evalOption (tables : List (String × Catalog)) (st : List ChoiceSlot × Nat)
    (kv : String × BuilderOption) : List ChoiceSlot × Nat :=
  match resolveValues tables kv.2 with
  | none => st
  | some values =>
    match st.1.find? (fun c => c.key == kv.1) with
    | some c =>
      (updateFirst st.1 kv.1 (refreshSlot kv values (kv.2.amount.getD 1)),
       if c.chosenValues.length == kv.2.amount.getD 1 then st.2 + 1 else st.2)
    | none =>
      (st.1 ++ [{ key := kv.1, label := kv.2.label.getD kv.1, category := kv.2.category,
                  options := values, chosenValues := [],
                  amount := kv.2.amount.getD 1 }], st.2)

/-- `trait.builderInfo.mode || "all"`: a falsy mode (absent or empty string)
defaults to the lowercase string `"all"`. -/
def defaultMode : Option String → String
  | some m => if m == "" then "all" else m
  | none => "all"

/-- The switch on the mode (lines 222-235): `"ALL"` → made-count equals the
option count, `"ANY"` → made-count positive, `"CHOOSE_ONE"` → made-count
exactly one; any other mode falls through and keeps the prior value. -/
def fulfillmentByMode (mode : String) (made total : Nat) (prior : Bool) : Bool :=
  if mode == "ALL" then made == total
  else if mode == "ANY" then decide (0 < made)
  else if mode == "CHOOSE_ONE" then made == 1
  else prior

/-- The per-record body of `prepareCharacterBuilderData` (lines 175-236):
falsy `builderInfo?.options` is trivially fulfilled; otherwise the mode is
defaulted, the options loop runs, and the switch on the mode decides
fulfillment. -/
def evalTraitChoice (tables : List (String × Catalog)) (tc : TraitChoice) : TraitChoice :=
  match tc.builderInfo with
  | none => { tc with choicesFulfilled := true }
  | some bi =>
    match bi.options with
    | none => { tc with choicesFulfilled := true }
    | some opts =>
      { tc with
        toTrait := { tc.toTrait with
          builderInfo := some { bi with mode := some (defaultMode bi.mode) } },
        choices := (opts.foldl (evalOption tables) (tc.choices, 0)).1,
        choicesFulfilled := fulfillmentByMode (defaultMode bi.mode)
          (opts.foldl (evalOption tables) (tc.choices, 0)).2 opts.length
          tc.choicesFulfilled }

/-- Whether the options loop skips an option entirely: truthy `valuesType`, no
explicit values, and no such catalog category (lines 194-196). -/
def optionSkipped (tables : List (String × Catalog)) (o : BuilderOption) : Bool :=
  truthyId o.valuesType && (o.values.getD []).isEmpty &&
    (lookupTable tables (o.valuesType.getD "")).isNone

/-- Whether an option contributes to `choicesMade` relative to the pre-run
slot list `choices0`: it is not skipped and the slot found by its key existed
before the run with `chosenValues.size` equal to the configured amount. -/
def optionCounts (tables : List (String × Catalog)) (choices0 : List ChoiceSlot)
    (kv : String × BuilderOption) : Bool :=
  !optionSkipped tables kv.2 &&
    (match choices0.find? (fun c => c.key == kv.1) with
     | some c => c.chosenValues.length == kv.2.amount.getD 1
     | none => false)

/-- The `(key, chosenValues.size)` view of `choices.find(c => c.key === k)`,
the only data of a found slot the counting step reads. -/
def findLen (l : List ChoiceSlot) (k : String) : Option Nat :=
  (l.find? (fun c => c.key == k)).map (fun c => c.chosenValues.length)

/-- Concrete options for the C2 failing input. -/
def optsC2 : List (String × BuilderOption) :=
  [("a", { amount := some 1, values := some ["x"] })]

/-- The C2 failing input: builder configuration with one option, no mode, and
a pre-existing slot already holding exactly `amount` chosen values. -/
def tcC2 : TraitChoice :=
  { toTrait := { id := some "A", name := "T", source := "BG", sourceId := "b1",
                 builderInfo := some { mode := none, options := some optsC2 } },
    choices := [{ key := "a", label := "a", options := ["x"], chosenValues := ["x"],
                  amount := 1 }],
    choicesFulfilled := false }

/-! ## 4.5 Advantage Aggregator (`prepareAdvantages`) -/

/-- A manually-stored advantage entry; `value` holds the catalog key
(`mapManualData` reads `value.value`). -/
structure StoredEntry where
  value : String
  deriving Repr, DecidableEq

/-- The `value` field of an Advantage: a manual entry stores the whole stored
record (`result.value = value`), innate/choice entries store the key string. -/
inductive AdvValue where
  | entry (e : StoredEntry)
  | catKey (k : String)
  deriving Repr, DecidableEq

/-- A final derived advantage entry.  `style := none` models the absent style
field of the manual tier; innate/choice entries always set one (possibly ""). -/
structure Advantage where
  source : String
  sourceType : String
  sourceId : Option String
  value : AdvValue
  label : String
  style : Option String
  deriving Repr, DecidableEq

/-- JS `\w`: ASCII letters, digits and underscore. -/
def isWordChar (c : Char) : Bool := c.isAlphanum || c == '_'

/-- Single-step scan for `/\w\w/g`: `pending` holds a word character seen at
the previous position that may start a match.  At a word character, either
complete a pair with the pending character (consuming both, as the regex
engine advances past the match) or remember it as pending; at a non-word
character, nothing can start or continue a match. -/
def wordPairsAux : Option Char → List Char → List (Char × Char)
  | _, [] => []
  | none, c :: rest =>
    if isWordChar c then wordPairsAux (some c) rest else wordPairsAux none rest
  | some p, c :: rest =>
    if isWordChar c then (p, c) :: wordPairsAux none rest else wordPairsAux none rest

/-- `color.match(/\w\w/g)`: the non-overlapping pairs of adjacent word
characters, scanning left to right. -/
def wordPairs (l : List Char) : List (Char × Char) := wordPairsAux none l

/-- One hex digit's value. -/
def hexDigitVal (c : Char) : Option Nat :=
  if '0' ≤ c ∧ c ≤ '9' then some (c.toNat - '0'.toNat)
  else if 'a' ≤ c ∧ c ≤ 'f' then some (c.toNat - 'a'.toNat + 10)
  else if 'A' ≤ c ∧ c ≤ 'F' then some (c.toNat - 'A'.toNat + 10)
  else none

/-- `parseInt(chunk, 16)` on a two-character chunk: parses the longest valid
prefix; `none` models NaN (no leading hex digit). -/
def jsParseHexPair (p : Char × Char) : Option Nat :=
  match hexDigitVal p.1, hexDigitVal p.2 with
  | some h1, some h2 => some (h1 * 16 + h2)
  | some h1, none => some h1
  | none, _ => none

/-- The first three parsed channels `rgb[0]`, `rgb[1]`, `rgb[2]` of a color
string, when all three exist and parse. -/
def jsRGB (c : String) : Option (Nat × Nat × Nat) :=
  let rgb := (wordPairs c.toList).map jsParseHexPair
  match rgb[0]?, rgb[1]?, rgb[2]? with
  | some (some r), some (some g), some (some b) => some (r, g, b)
  | _, _, _ => none

/-- `buildStyleString` (lines 257-270) as the computed `style` value: a falsy
color yields the empty style; a truthy color with no word-char pair at all
makes `match` return `null` and `null.map` throw (modelled as `none`); a NaN
brightness (missing or unparseable channel) compares false to 125 and yields
white; `Math.round(n / 1000)` on non-negative integers is `(n + 500) / 1000`. -/
def buildStyleString (color : Option String) : Option String :=
  match color with
  | none => some ""
  | some c =>
    if c == "" then some ""
    else if (wordPairs c.toList).isEmpty then none
    else
      some ("background-color: " ++ c ++ ";" ++ "color: " ++
        (match jsRGB c with
         | some (r, g, b) =>
           if (r * 299 + g * 587 + b * 114 + 500) / 1000 > 125 then "black" else "white"
         | none => "white") ++ ";")

/-- `mapManualData` (lines 244-251): wrap a stored entry with source "Manual"
and the catalog label; an unknown stored value makes
`types[value.value].label` throw on `undefined` (modelled as `none`). -/
def mapManualData (types : Catalog) (v : StoredEntry) : Option Advantage :=
  (lookupCat types v.value).map fun cfg =>
    { source := "Manual", sourceType := "manual", sourceId := none,
      value := AdvValue.entry v, label := cfg.label, style := none }

/-- `mapInnate` (lines 273-287).  Outer `none` = a TypeError from the style
computation; `some none` = unknown type, logged, `undefined` returned (and the
`undefined` still flows into the set); `some (some a)` = a resolved innate
advantage. -/
def mapInnate (t : Trait) (types : Catalog) (innate : String) :
    Option (Option Advantage) :=
  match lookupCat types innate with
  | none => some none
  | some cfg =>
    (buildStyleString t.color).map fun st =>
      some { source := t.source ++ " (" ++ t.name ++ ")", sourceType := "innate",
             sourceId := some t.sourceId, value := AdvValue.catKey innate,
             label := cfg.label, style := some st }

/-- One chosen value inside `reduceTraitChoice` (lines 307-325).  Outer
`none` = a TypeError from the style computation; `some none` = unknown type,
logged and skipped (`continue`, nothing pushed); `some (some a)` = a pushed
choice advantage. -/
def mapChoiceValue (tc : TraitChoice) (types : Catalog) (v : String) :
    Option (Option Advantage) :=
  match lookupCat types v with
  | none => some none
  | some cfg =>
    (buildStyleString tc.color).map fun st =>
      some { source := tc.source ++ " (" ++ tc.name ++ ")", sourceType := "choice",
             sourceId := some tc.sourceId, value := AdvValue.catKey v,
             label := cfg.label, style := some st }

/-- `Array.prototype.map` under possible exceptions: `none` iff some element's
computation throws, otherwise the result list in order. -/
def mapMOpt {α β : Type} (f : α → Option β) : List α → Option (List β)
  | [] => some []
  | a :: as => (f a).bind fun b => (mapMOpt f as).bind fun bs => some (b :: bs)

/-- `Set#add` on a JS/Foundry Set: each freshly created object is a new member
appended in insertion order; all `undefined` values are one member (kept at
its first position). -/
def jsSetAdd (l : List (Option Advantage)) (x : Option Advantage) :
    List (Option Advantage) :=
  match x with
  | none => if l.any (fun e => e.isNone) then l else l ++ [none]
  | some a => l ++ [some a]

/-- `reduceTraitChoice` folded over one TraitChoice's slots for one category:
the advantages pushed, in slot order then chosen-value order; unknown values
are skipped; `none` = a style TypeError escaped. -/
def reduceTraitChoice (tc : TraitChoice) (category : String) (types : Catalog) :
    Option (List Advantage) :=
  (mapMOpt (mapChoiceValue tc types)
      ((tc.choices.filter (fun c => c.category == some category)).flatMap
        (fun c => c.chosenValues))).map
    (fun l => l.filterMap id)

/-- Lines 288-304 for one category: add every trait's mapped innate values
(including the `undefined` results for unknown keys) to the set. -/
def innateTier (types : Catalog) (sel : Innate → List String) :
    List Trait → List (Option Advantage) → Option (List (Option Advantage))
  | [], acc => some acc
  | t :: ts, acc =>
    (mapMOpt (mapInnate t types) (sel t.innate)).bind fun adds =>
      innateTier types sel ts (adds.foldl jsSetAdd acc)

/-- Lines 326-342 for one category: add every TraitChoice's pushed choice
advantages to the set. -/
def choiceTier (types : Catalog) (category : String) :
    List TraitChoice → List (Option Advantage) → Option (List (Option Advantage))
  | [], acc => some acc
  | tc :: tcs, acc =>
    (reduceTraitChoice tc category types).bind fun adds =>
      choiceTier types category tcs ((adds.map some).foldl jsSetAdd acc)

/-- The label comparator `(a, b) => a.label.localeCompare(b.label)` as an
order on advantages. -/
def labelLE (a b : Advantage) : Prop := strLE a.label b.label = true

instance : DecidableRel labelLE :=
  fun a b => inferInstanceAs (Decidable (strLE a.label b.label = true))

/-- Lines 344-360 for one set: `new Set(Array.from(set).sort(cmp))`.  JS
`sort` is stable, never calls the comparator on `undefined` elements and
moves them to the end; re-collecting into a Set keeps that order. -/
def finalize (l : List (Option Advantage)) : List (Option Advantage) :=
  ((l.filterMap id).insertionSort labelLE).map some ++
    (if l.any (fun e => e.isNone) then [none] else [])

/-- The stored fields, catalog tables, traits and trait choices feeding
`prepareAdvantages`. -/
structure AdvInputs where
  profTypes : Catalog := []
  damageTypes : Catalog := []
  langTypes : Catalog := []
  saveTypes : Catalog := []
  manualProficiencies : List StoredEntry := []
  manualResistances : List StoredEntry := []
  manualLanguages : List StoredEntry := []
  manualSaveAdvantages : List StoredEntry := []
  traits : List Trait := []
  traitChoices : List TraitChoice := []
  deriving Repr, DecidableEq

/-- The four final advantage sets as insertion-ordered member lists (a `none`
member is the JS `undefined`). -/
structure AdvantageSets where
  proficiencies : List (Option Advantage)
  resistances : List (Option Advantage)
  languages : List (Option Advantage)
  saveAdvantages : List (Option Advantage)
  deriving Repr, DecidableEq

/-- One category's pipeline: manual tier, innate tier, choice tier, then the
dedupe-free sort; `none` = a TypeError escaped the aggregation. -/
def buildCategory (types : Catalog) (manual : List StoredEntry) (traits : List Trait)
    (tcs : List TraitChoice) (sel : Innate → List String) (category : String) :
    Option (List (Option Advantage)) :=
  (mapMOpt (mapManualData types) manual).bind fun base =>
    (innateTier types sel traits (base.map some)).bind fun afterInnate =>
      (choiceTier types category tcs afterInnate).bind fun afterChoice =>
        some (finalize afterChoice)

/-- `prepareAdvantages` (lines 241-362): build the four sets.  The JS loop
interleaves the four categories per trait; since each step only appends to
its own category's set and every TypeError condition is determined by the
input data alone, the per-category grouping yields the same sets and the same
definedness. -/
def prepareAdvantages (inp : AdvInputs) : Option AdvantageSets :=
  (buildCategory inp.profTypes inp.manualProficiencies inp.traits inp.traitChoices
      (fun i => i.proficiencies) "PROFICIENCY_TYPES").bind fun p =>
    (buildCategory inp.damageTypes inp.manualResistances inp.traits inp.traitChoices
        (fun i => i.resistances) "DAMAGE_TYPES").bind fun r =>
      (buildCategory inp.langTypes inp.manualLanguages inp.traits inp.traitChoices
          (fun i => i.languages) "LANGUAGE_TYPES").bind fun lg =>
        (buildCategory inp.saveTypes inp.manualSaveAdvantages inp.traits
            inp.traitChoices (fun i => i.saveAdvantages) "SAVE_TYPES").bind fun sv =>
          some ⟨p, r, lg, sv⟩

/-- C1/C5 witness catalog: one proficiency type. -/
def profTypesW : Catalog := [("arcana", { label := "Arcana" })]

/-- C1 counterexample input: one trait with one unknown innate proficiency. -/
def inpC1 : AdvInputs :=
  { profTypes := profTypesW,
    traits := [{ id := some "t1", name := "T", source := "BG", sourceId := "b1",
                 innate := { proficiencies := ["bogus"] } }] }

/-- C5 counterexample input: one trait granting the same innate proficiency
twice. -/
def inpC5 : AdvInputs :=
  { profTypes := profTypesW,
    traits := [{ id := some "t1", name := "T", source := "BG", sourceId := "b1",
                 innate := { proficiencies := ["arcana", "arcana"] } }] }

/-- The advantage entry `inpC5` produces twice. -/
def advC5 : Advantage :=
  { source := "BG (T)", sourceType := "innate", sourceId := some "b1",
    value := AdvValue.catKey "arcana", label := "Arcana", style := some "" }

/-- The C2 failing input with the mode made explicit (`"ALL"` spelled as the
switch expects), for contrast. -/
def tcC2all : TraitChoice :=
  { toTrait := { id := some "A", name := "T", source := "BG", sourceId := "b1",
                 builderInfo := some { mode := some "ALL", options := some optsC2 } },
    choices := [{ key := "a", label := "a", options := ["x"], chosenValues := ["x"],
                  amount := 1 }],
    choicesFulfilled := false }

/-- Concrete catalog tables for the C10 witness. -/
def tablesC10 : List (String × Catalog) := [("CAT", [("x", { label := "X" })])]

/-- Concrete options for the C10 witness: one resolvable option. -/
def optsC10 : List (String × BuilderOption) := [("a", { valuesType := some "CAT" })]

/-- The C10 witness record: mode "ALL", one resolvable option, no slots yet. -/
def tcC10 : TraitChoice :=
  { toTrait := { id := some "A", name := "T", source := "BG", sourceId := "b1",
                 builderInfo := some { mode := some "ALL", options := some optsC10 } },
    choices := [], choicesFulfilled := false }

/-- Concrete provider for the C8 witness: document `a` ("Alpha") is present in
both the local Item collection and a matching pack. -/
def provC8 : DocProvider :=
  { collections := [("Item", [⟨"b", "Beta", "background"⟩, ⟨"a", "Alpha", "background"⟩])],
    packs := [{ ptype := "Item",
                index := [⟨"a", "background"⟩],
                contents := [("a", ⟨"a", "Alpha", "background"⟩)] }] }

/-- Concrete warm cache for the C7 witness. -/
def cacheC7 : Cache :=
  { lineage := [⟨"l", "L", "lineage"⟩], heritage := [⟨"h", "H", "heritage"⟩],
    background := [⟨"b", "B", "background"⟩], talent := [⟨"t", "T", "talent"⟩],
    classDocs := [⟨"c", "C", "class"⟩] }

/-- Concrete traits for the C3 witness: one id-bearing trait, one without id. -/
def traitsC3 : List Trait :=
  [{ id := some "A", name := "TraitA", source := "BG", sourceId := "bg1" },
   { id := none, name := "Anon", source := "BG", sourceId := "bg1" }]

/-- Concrete pre-existing TraitChoices for the C3 witness: one stale record. -/
def choicesC3 : List TraitChoice :=
  [{ toTrait := { id := some "Z", name := "Stale", source := "OldBG", sourceId := "old1" },
     choices := [{ key := "k", label := "k" }], choicesFulfilled := true }]

end BlackFlag

namespace BlackFlag

/-- C4: For every ability key and raw integer score `v`, the deriver keeps the
key set unchanged, emits the pair `{value := v, mod := ⌊(v-10)/2⌋}` (the floor
characterised by `2*mod ≤ v-10 < 2*mod+2`), is total, and touches no other
entry — plus the boundary table 1→-5, 10→0, 11→0, 12→1, 20→5. -/
theorem c4_ability_modifier (l : List (String × Int)) :
    (prepareAbilityScoreMods l).map Prod.fst = l.map Prod.fst ∧
    (∀ p ∈ l,
      (p.1, AbilityScore.mk p.2 (Int.fdiv (p.2 - 10) 2)) ∈ prepareAbilityScoreMods l ∧
      2 * Int.fdiv (p.2 - 10) 2 ≤ p.2 - 10 ∧ p.2 - 10 < 2 * Int.fdiv (p.2 - 10) 2 + 2) ∧
    Int.fdiv ((1 : Int) - 10) 2 = -5 ∧ Int.fdiv ((10 : Int) - 10) 2 = 0 ∧
    Int.fdiv ((11 : Int) - 10) 2 = 0 ∧ Int.fdiv ((12 : Int) - 10) 2 = 1 ∧
    Int.fdiv ((20 : Int) - 10) 2 = 5 := by
  refine ⟨?_, ?_, by decide, by decide, by decide, by decide, by decide⟩
  · simp [prepareAbilityScoreMods]
  · intro p hp
    refine ⟨List.mem_map.mpr ⟨p, hp, rfl⟩, ?_, ?_⟩ <;>
    · rw [Int.fdiv_eq_ediv _ (by norm_num)]
      omega

/-- Witness for C4 at the concrete ability list `[("str", 7)]`. -/
theorem c4_ability_modifier_witness :
    (prepareAbilityScoreMods [("str", 7)]).map Prod.fst = [("str", (7 : Int))].map Prod.fst ∧
    (∀ p ∈ [("str", (7 : Int))],
      (p.1, AbilityScore.mk p.2 (Int.fdiv (p.2 - 10) 2)) ∈ prepareAbilityScoreMods [("str", 7)] ∧
      2 * Int.fdiv (p.2 - 10) 2 ≤ p.2 - 10 ∧ p.2 - 10 < 2 * Int.fdiv (p.2 - 10) 2 + 2) ∧
    Int.fdiv ((1 : Int) - 10) 2 = -5 ∧ Int.fdiv ((10 : Int) - 10) 2 = 0 ∧
    Int.fdiv ((11 : Int) - 10) 2 = 0 ∧ Int.fdiv ((12 : Int) - 10) 2 = 1 ∧
    Int.fdiv ((20 : Int) - 10) 2 = 5 :=
  c4_ability_modifier [("str", 7)]

/-- `charListLE` is total. -/
theorem charListLE_total : ∀ x y : List Char, charListLE x y = true ∨ charListLE y x = true := by
  intro x
  induction x with
  | nil => intro y; exact Or.inl rfl
  | cons a as ih =>
    intro y
    cases y with
    | nil => exact Or.inr rfl
    | cons b bs =>
      unfold charListLE
      by_cases hab : a.toNat < b.toNat
      · left
        rw [if_pos hab]
      · by_cases hba : b.toNat < a.toNat
        · right
          rw [if_pos hba]
        · rcases ih bs with h | h
          · left
            rw [if_neg hab, if_neg hba]
            exact h
          · right
            rw [if_neg hba, if_neg hab]
            exact h

/-- `charListLE` is transitive. -/
theorem charListLE_trans : ∀ x y z : List Char,
    charListLE x y = true → charListLE y z = true → charListLE x z = true := by
  intro x
  induction x with
  | nil => intro y z _ _; rfl
  | cons a as ih =>
    intro y z hxy hyz
    cases y with
    | nil => exact absurd hxy (by simp [charListLE])
    | cons b bs =>
      cases z with
      | nil => exact absurd hyz (by simp [charListLE])
      | cons c cs =>
        unfold charListLE at hxy hyz ⊢
        by_cases hab : a.toNat < b.toNat
        · by_cases hbc : b.toNat < c.toNat
          · rw [if_pos (by omega : a.toNat < c.toNat)]
          · by_cases hcb : c.toNat < b.toNat
            · rw [if_neg hbc, if_pos hcb] at hyz
              exact absurd hyz Bool.false_ne_true
            · rw [if_pos (by omega : a.toNat < c.toNat)]
        · by_cases hba : b.toNat < a.toNat
          · rw [if_neg hab, if_pos hba] at hxy
            exact absurd hxy Bool.false_ne_true
          · rw [if_neg hab, if_neg hba] at hxy
            by_cases hbc : b.toNat < c.toNat
            · rw [if_pos (by omega : a.toNat < c.toNat)]
            · by_cases hcb : c.toNat < b.toNat
              · rw [if_neg hbc, if_pos hcb] at hyz
                exact absurd hyz Bool.false_ne_true
              · rw [if_neg hbc, if_neg hcb] at hyz
                rw [if_neg (by omega : ¬ a.toNat < c.toNat),
                  if_neg (by omega : ¬ c.toNat < a.toNat)]
                exact ih bs cs hxy hyz

/-- `strLE` is total. -/
theorem strLE_total (x y : String) : strLE x y = true ∨ strLE y x = true :=
  charListLE_total x.toList y.toList

/-- `strLE` is transitive. -/
theorem strLE_trans (x y z : String) (h1 : strLE x y = true) (h2 : strLE y z = true) :
    strLE x z = true :=
  charListLE_trans x.toList y.toList z.toList h1 h2

/-- Folding `collection.set` over a name-sorted document list yields an
id-deduplicated, name-sorted collection, provided same-id documents carry the
same name. Stated over the mapped name/id lists; `acc` is the collection built
so far. -/
theorem foldl_mapSet_spec (l : List Doc) : ∀ acc : List Doc,
    List.Sorted (fun x y : String => strLE x y = true) (l.map Doc.name) →
    List.Sorted (fun x y : String => strLE x y = true) (acc.map Doc.name) →
    (∀ a ∈ acc, ∀ b ∈ l, strLE a.name b.name = true) →
    (acc.map Doc.id).Nodup →
    (∀ a b : Doc, (a ∈ acc ∨ a ∈ l) → (b ∈ acc ∨ b ∈ l) → a.id = b.id → a.name = b.name) →
    List.Sorted (fun x y : String => strLE x y = true) ((l.foldl mapSet acc).map Doc.name) ∧
    ((l.foldl mapSet acc).map Doc.id).Nodup ∧
    (∀ i, i ∈ (l.foldl mapSet acc).map Doc.id ↔
      (i ∈ acc.map Doc.id ∨ i ∈ l.map Doc.id)) := by
  induction l with
  | nil =>
    intro acc _ hsa _ hnd _
    exact ⟨hsa, hnd, by simp⟩
  | cons d rest ih =>
    intro acc hsl hsa hcross hnd hcons
    rw [List.map_cons, List.sorted_cons] at hsl
    obtain ⟨hdle, hsl'⟩ := hsl
    rw [List.foldl_cons]
    by_cases hmem : acc.any (fun e => e.id == d.id) = true
    · -- `d.id` already present: in-place replacement, same ids, same names
      have hms : mapSet acc d = acc.map (fun e => if e.id == d.id then d else e) := by
        unfold mapSet
        rw [if_pos hmem]
      have hmemacc : ∀ x ∈ mapSet acc d, x ∈ acc ∨ x = d := by
        rw [hms]
        intro x hx
        obtain ⟨e, he, hfe⟩ := List.mem_map.mp hx
        by_cases hc : e.id = d.id
        · right
          rw [← hfe]
          simp [hc]
        · left
          rw [← hfe]
          simpa [hc] using he
      have hname : (mapSet acc d).map Doc.name = acc.map Doc.name := by
        rw [hms, List.map_map]
        apply List.map_congr_left
        intro e he
        by_cases hc : e.id = d.id
        · have hn := hcons e d (Or.inl he) (Or.inr (List.mem_cons_self d rest)) hc
          simp [Function.comp, hc, hn]
        · simp [Function.comp, hc]
      have hid : (mapSet acc d).map Doc.id = acc.map Doc.id := by
        rw [hms, List.map_map]
        apply List.map_congr_left
        intro e _
        by_cases hc : e.id = d.id
        · simp [Function.comp, hc]
        · simp [Function.comp, hc]
      have hcross' : ∀ a ∈ mapSet acc d, ∀ b ∈ rest, strLE a.name b.name = true := by
        intro a ha b hb
        rcases hmemacc a ha with h | h
        · exact hcross a h b (List.mem_cons_of_mem d hb)
        · rw [h]
          exact hdle b.name (List.mem_map_of_mem Doc.name hb)
      have hcons' : ∀ a b : Doc, (a ∈ mapSet acc d ∨ a ∈ rest) →
          (b ∈ mapSet acc d ∨ b ∈ rest) → a.id = b.id → a.name = b.name := by
        intro a b ha hb hid'
        have hmv : ∀ x : Doc, (x ∈ mapSet acc d ∨ x ∈ rest) → (x ∈ acc ∨ x ∈ d :: rest) := by
          intro x hx
          rcases hx with hx | hx
          · rcases hmemacc x hx with h | h
            · exact Or.inl h
            · exact Or.inr (h ▸ List.mem_cons_self d rest)
          · exact Or.inr (List.mem_cons_of_mem d hx)
        exact hcons a b (hmv a ha) (hmv b hb) hid'
      obtain ⟨g1, g2, g3⟩ := ih (mapSet acc d) hsl' (hname ▸ hsa) hcross' (hid ▸ hnd) hcons'
      refine ⟨g1, g2, ?_⟩
      intro i
      rw [g3 i, hid]
      have hdid : d.id ∈ acc.map Doc.id := by
        obtain ⟨e, he, hei⟩ := List.any_eq_true.mp hmem
        have : e.id = d.id := by simpa using hei
        exact this ▸ List.mem_map_of_mem Doc.id he
      constructor
      · rintro (h | h)
        · exact Or.inl h
        · exact Or.inr (List.mem_cons_of_mem d.id h)
      · rintro (h | h)
        · exact Or.inl h
        · rcases List.mem_cons.mp h with h | h
          · exact Or.inl (h ▸ hdid)
          · exact Or.inr h
    · -- `d.id` is new: appended at the end
      have hms : mapSet acc d = acc ++ [d] := by
        unfold mapSet
        rw [if_neg hmem]
      have hnotin : d.id ∉ acc.map Doc.id := by
        intro hin
        apply hmem
        obtain ⟨e, he, hei⟩ := List.mem_map.mp hin
        exact List.any_eq_true.mpr ⟨e, he, by simp [hei]⟩
      have hname : (mapSet acc d).map Doc.name = acc.map Doc.name ++ [d.name] := by
        rw [hms, List.map_append]
        rfl
      have hsa' : List.Sorted (fun x y : String => strLE x y = true) ((mapSet acc d).map Doc.name) := by
        rw [hname, List.Sorted, List.pairwise_append]
        refine ⟨hsa, List.pairwise_singleton _ _, ?_⟩
        intro n hn m hm
        obtain ⟨e, he, hen⟩ := List.mem_map.mp hn
        rw [List.mem_singleton] at hm
        rw [hm, ← hen]
        exact hcross e he d (List.mem_cons_self d rest)
      have hcross' : ∀ a ∈ mapSet acc d, ∀ b ∈ rest, strLE a.name b.name = true := by
        intro a ha b hb
        rw [hms] at ha
        rcases List.mem_append.mp ha with h | h
        · exact hcross a h b (List.mem_cons_of_mem d hb)
        · rw [List.mem_singleton] at h
          rw [h]
          exact hdle b.name (List.mem_map_of_mem Doc.name hb)
      have hnd' : ((mapSet acc d).map Doc.id).Nodup := by
        rw [hms, List.map_append, List.nodup_append]
        exact ⟨hnd, List.nodup_singleton _, by simpa using fun h => hnotin h⟩
      have hcons' : ∀ a b : Doc, (a ∈ mapSet acc d ∨ a ∈ rest) →
          (b ∈ mapSet acc d ∨ b ∈ rest) → a.id = b.id → a.name = b.name := by
        intro a b ha hb hid'
        have hmv : ∀ x : Doc, (x ∈ mapSet acc d ∨ x ∈ rest) → (x ∈ acc ∨ x ∈ d :: rest) := by
          intro x hx
          rcases hx with hx | hx
          · rw [hms] at hx
            rcases List.mem_append.mp hx with h | h
            · exact Or.inl h
            · rw [List.mem_singleton] at h
              exact Or.inr (h ▸ List.mem_cons_self d rest)
          · exact Or.inr (List.mem_cons_of_mem d hx)
        exact hcons a b (hmv a ha) (hmv b hb) hid'
      obtain ⟨g1, g2, g3⟩ := ih (mapSet acc d) hsl' hsa' hcross' hnd' hcons'
      refine ⟨g1, g2, ?_⟩
      intro i
      rw [g3 i, hms, List.map_append]
      constructor
      · rintro (h | h)
        · rcases List.mem_append.mp h with h | h
          · exact Or.inl h
          · simp only [List.map_cons, List.map_nil, List.mem_singleton] at h
            exact Or.inr (h ▸ List.mem_cons_self d.id _)
        · exact Or.inr (List.mem_cons_of_mem _ h)
      · rintro (h | h)
        · exact Or.inl (List.mem_append.mpr (Or.inl h))
        · rcases List.mem_cons.mp h with h | h
          · exact Or.inl (List.mem_append.mpr (Or.inr (by simp [h])))
          · exact Or.inr h

/-- C8: For every tracked subtype, the cached catalog collection built from
the local collection plus all matching package entries is deduplicated by
document identity (each id appears once, and exactly the gathered ids appear)
and its iteration order is ascending by document name under the (locale)
comparator, provided gathered documents sharing an id are the same document
(same name). -/
theorem c8_catalog_collection (prov : DocProvider) (ptype subtype : String)
    (hcons : ∀ a ∈ (gatherDocs prov ptype subtype).1, ∀ b ∈ (gatherDocs prov ptype subtype).1,
      a.id = b.id → a.name = b.name) :
    List.Sorted nameLE (getForeignDocuments prov ptype subtype).1 ∧
    (((getForeignDocuments prov ptype subtype).1).map Doc.id).Nodup ∧
    (∀ i, i ∈ ((getForeignDocuments prov ptype subtype).1).map Doc.id ↔
      i ∈ ((gatherDocs prov ptype subtype).1).map Doc.id) := by
  have hres : (getForeignDocuments prov ptype subtype).1 =
      (((gatherDocs prov ptype subtype).1).insertionSort nameLE).foldl mapSet [] := rfl
  set g := (gatherDocs prov ptype subtype).1 with hg
  have hperm : List.Perm (g.insertionSort nameLE) g := List.perm_insertionSort nameLE g
  haveI : IsTotal Doc nameLE := ⟨fun a b => strLE_total a.name b.name⟩
  haveI : IsTrans Doc nameLE := ⟨fun a b c h1 h2 => strLE_trans a.name b.name c.name h1 h2⟩
  have hsorted : List.Sorted nameLE (g.insertionSort nameLE) :=
    List.sorted_insertionSort nameLE g
  have hsortedmap : List.Sorted (fun x y : String => strLE x y = true) ((g.insertionSort nameLE).map Doc.name) := by
    rw [List.Sorted, List.pairwise_map]
    exact hsorted
  have hconss : ∀ a b : Doc, (a ∈ ([] : List Doc) ∨ a ∈ g.insertionSort nameLE) →
      (b ∈ ([] : List Doc) ∨ b ∈ g.insertionSort nameLE) → a.id = b.id → a.name = b.name := by
    intro a b ha hb hid
    rcases ha with ha | ha
    · exact absurd ha (List.not_mem_nil a)
    · rcases hb with hb | hb
      · exact absurd hb (List.not_mem_nil b)
      · exact hcons a (hperm.mem_iff.mp ha) b (hperm.mem_iff.mp hb) hid
  obtain ⟨g1, g2, g3⟩ := foldl_mapSet_spec (g.insertionSort nameLE) [] hsortedmap
    (by simp) (by simp) (by simp) hconss
  refine ⟨?_, ?_, ?_⟩
  · rw [hres]
    exact (List.pairwise_map (f := Doc.name) (R := fun x y : String => strLE x y = true)).mp g1
  · rw [hres]
    exact g2
  · intro i
    rw [hres, g3 i]
    simp only [List.map_nil, List.not_mem_nil, false_or]
    exact (hperm.map Doc.id).mem_iff

/-- Witness for C8 at `provC8`, where document `a` appears both locally and in
a pack: the collection is id-deduplicated and name-sorted. -/
theorem c8_catalog_collection_witness :
    List.Sorted nameLE (getForeignDocuments provC8 "Item" "background").1 ∧
    (((getForeignDocuments provC8 "Item" "background").1).map Doc.id).Nodup ∧
    (∀ i, i ∈ ((getForeignDocuments provC8 "Item" "background").1).map Doc.id ↔
      i ∈ ((gatherDocs provC8 "Item" "background").1).map Doc.id) :=
  c8_catalog_collection provC8 "Item" "background" (by decide)

/-- C7: a derivation pass that finds the catalog cache warm for every tracked
subtype performs zero additional fetches and leaves every cached collection
identical to its prior contents. -/
theorem c7_catalog_warm_noop (prov : DocProvider) (cache : Cache)
    (hl : cache.lineage ≠ []) (hh : cache.heritage ≠ []) (hb : cache.background ≠ [])
    (ht : cache.talent ≠ []) (hc : cache.classDocs ≠ []) :
    catalogStep prov cache = (cache, 0) := by
  have h0 : (cache.background.length == 0) = false := by
    simp only [beq_eq_false_iff_ne, ne_eq, List.length_eq_zero]
    exact hb
  unfold catalogStep
  rw [h0]
  simp

/-- Witness for C7 at the concrete warm cache `cacheC7`. -/
theorem c7_catalog_warm_noop_witness :
    catalogStep ⟨[], []⟩ cacheC7 = (cacheC7, 0) :=
  c7_catalog_warm_noop ⟨[], []⟩ cacheC7 (by decide) (by decide) (by decide) (by decide)
    (by decide)

/-- The add-missing fold only ever appends: prior members persist. -/
theorem mem_addMissingChoices_of_mem (traits : List Trait) :
    ∀ acc : List TraitChoice, ∀ c ∈ acc, c ∈ addMissingChoices acc traits := by
  induction traits with
  | nil =>
    intro acc c hc
    exact hc
  | cons t rest ih =>
    intro acc c hc
    unfold addMissingChoices
    rw [List.foldl_cons]
    by_cases ht : truthyId t.id = true
    · by_cases hany : (acc.any fun c2 => c2.id == t.id) = true
      · simpa [addMissingChoices, ht, hany] using ih acc c hc
      · have : c ∈ acc ++ [mkChoice t] := List.mem_append.mpr (Or.inl hc)
        simpa [addMissingChoices, ht, hany] using ih (acc ++ [mkChoice t]) c this
    · simpa [addMissingChoices, ht] using ih acc c hc

/-- Everything in the add-missing fold's result is an original TraitChoice or
a fresh `mkChoice` of a truthy-id current Trait. -/
theorem mem_addMissingChoices_elim (traits : List Trait) :
    ∀ acc : List TraitChoice, ∀ c ∈ addMissingChoices acc traits,
      c ∈ acc ∨ ∃ t ∈ traits, truthyId t.id = true ∧ c = mkChoice t := by
  induction traits with
  | nil =>
    intro acc c hc
    exact Or.inl hc
  | cons t rest ih =>
    intro acc c hc
    unfold addMissingChoices at hc
    rw [List.foldl_cons] at hc
    by_cases ht : truthyId t.id = true
    · by_cases hany : (acc.any fun c2 => c2.id == t.id) = true
      · rw [if_pos ht, if_pos hany] at hc
        rcases ih acc c hc with h | ⟨t2, ht2, htr, hce⟩
        · exact Or.inl h
        · exact Or.inr ⟨t2, List.mem_cons_of_mem t ht2, htr, hce⟩
      · rw [if_pos ht, if_neg hany] at hc
        rcases ih (acc ++ [mkChoice t]) c hc with h | ⟨t2, ht2, htr, hce⟩
        · rcases List.mem_append.mp h with h | h
          · exact Or.inl h
          · rw [List.mem_singleton] at h
            exact Or.inr ⟨t, List.mem_cons_self t rest, ht, h⟩
        · exact Or.inr ⟨t2, List.mem_cons_of_mem t ht2, htr, hce⟩
    · rw [if_neg ht] at hc
      rcases ih acc c hc with h | ⟨t2, ht2, htr, hce⟩
      · exact Or.inl h
      · exact Or.inr ⟨t2, List.mem_cons_of_mem t ht2, htr, hce⟩

/-- Every truthy-id current Trait has a TraitChoice with its id after the
add-missing fold. -/
theorem addMissingChoices_covers (traits : List Trait) :
    ∀ acc : List TraitChoice, ∀ t ∈ traits, truthyId t.id = true →
      ∃ c ∈ addMissingChoices acc traits, c.id = t.id := by
  induction traits with
  | nil =>
    intro acc t ht
    exact absurd ht (List.not_mem_nil t)
  | cons d rest ih =>
    intro acc t ht htr
    rcases List.mem_cons.mp ht with h | h
    · subst h
      unfold addMissingChoices
      rw [List.foldl_cons, if_pos htr]
      by_cases hany : (acc.any fun c2 => c2.id == t.id) = true
      · rw [if_pos hany]
        obtain ⟨c, hcm, hcid⟩ := List.any_eq_true.mp hany
        exact ⟨c, mem_addMissingChoices_of_mem rest acc c hcm, by simpa using hcid⟩
      · rw [if_neg hany]
        refine ⟨mkChoice t, ?_, rfl⟩
        exact mem_addMissingChoices_of_mem rest (acc ++ [mkChoice t]) (mkChoice t)
          (List.mem_append.mpr (Or.inr (List.mem_singleton.mpr rfl)))
    · unfold addMissingChoices
      rw [List.foldl_cons]
      by_cases hd : truthyId d.id = true
      · by_cases hany : (acc.any fun c2 => c2.id == d.id) = true
        · rw [if_pos hd, if_pos hany]
          exact ih acc t h htr
        · rw [if_pos hd, if_neg hany]
          exact ih (acc ++ [mkChoice d]) t h htr
      · rw [if_neg hd]
        exact ih acc t h htr

/-- C3: after reconciliation the set of TraitChoice ids is exactly the set of
ids among the current Traits that have a (truthy) id; every fresh TraitChoice
starts with `choices = []` and `choicesFulfilled = false`; every TraitChoice
whose id no current Trait carries is removed.  Pre-existing TraitChoice
records carry an id per the data model (they are only ever created from
id-bearing traits). -/
theorem c3_reconcile_ids (traits : List Trait) (choices0 : List TraitChoice)
    (h0 : ∀ c ∈ choices0, truthyId c.id = true) :
    (∀ i : Option String,
      (∃ c ∈ reconcileTraitChoices traits choices0, c.id = i) ↔
      (∃ t ∈ traits, truthyId t.id = true ∧ t.id = i)) ∧
    (∀ c ∈ reconcileTraitChoices traits choices0,
      c ∈ choices0 ∨ (c.choices = [] ∧ c.choicesFulfilled = false)) := by
  constructor
  · intro i
    constructor
    · rintro ⟨c, hc, rfl⟩
      obtain ⟨hcm, hkeep⟩ := List.mem_filter.mp hc
      obtain ⟨t, htm, htid⟩ := List.any_eq_true.mp hkeep
      have htid' : t.id = c.id := by simpa using htid
      rcases mem_addMissingChoices_elim traits choices0 c hcm with h | ⟨t2, ht2, htr, hce⟩
      · exact ⟨t, htm, htid' ▸ h0 c h, htid'⟩
      · refine ⟨t2, ht2, htr, ?_⟩
        rw [hce]
        rfl
    · rintro ⟨t, htm, htr, rfl⟩
      obtain ⟨c, hcm, hcid⟩ := addMissingChoices_covers traits choices0 t htm htr
      refine ⟨c, List.mem_filter.mpr ⟨hcm, ?_⟩, hcid⟩
      exact List.any_eq_true.mpr ⟨t, htm, by simp [hcid]⟩
  · intro c hc
    obtain ⟨hcm, _⟩ := List.mem_filter.mp hc
    rcases mem_addMissingChoices_elim traits choices0 c hcm with h | ⟨t2, _, _, hce⟩
    · exact Or.inl h
    · right
      rw [hce]
      exact ⟨rfl, rfl⟩

/-- Witness for C3 at `traitsC3`/`choicesC3` (one id-bearing trait, one
id-less trait, one stale pre-existing TraitChoice). -/
theorem c3_reconcile_ids_witness :
    (∀ i : Option String,
      (∃ c ∈ reconcileTraitChoices traitsC3 choicesC3, c.id = i) ↔
      (∃ t ∈ traitsC3, truthyId t.id = true ∧ t.id = i)) ∧
    (∀ c ∈ reconcileTraitChoices traitsC3 choicesC3,
      c ∈ choicesC3 ∨ (c.choices = [] ∧ c.choicesFulfilled = false)) :=
  c3_reconcile_ids traitsC3 choicesC3 (by decide)

/-- `find?` on a cons, in `ite` form. -/
theorem find?_cons_eq {α : Type} (p : α → Bool) (c : α) (cs : List α) :
    List.find? p (c :: cs) = if p c then some c else List.find? p cs := by
  by_cases h : p c = true
  · rw [List.find?_cons_of_pos _ h, if_pos h]
  · rw [List.find?_cons_of_neg _ h, if_neg h]

/-- `resolveValues` yields `none` exactly when the option is skipped. -/
theorem resolveValues_none_iff (tables : List (String × Catalog)) (o : BuilderOption) :
    resolveValues tables o = none ↔ optionSkipped tables o = true := by
  unfold resolveValues optionSkipped
  by_cases h : (truthyId o.valuesType && (o.values.getD []).isEmpty) = true
  · rw [if_pos h, h, Bool.true_and]
    rw [Option.map_eq_none']
    exact ⟨fun hn => by rw [hn]; rfl, fun hn => Option.isNone_iff_eq_none.mp hn⟩
  · have h' : (truthyId o.valuesType && (o.values.getD []).isEmpty) = false := by
      revert h
      cases truthyId o.valuesType && (o.values.getD []).isEmpty <;> simp
    rw [if_neg h, h', Bool.false_and]
    simp

/-- Equation: a skipped option leaves the state unchanged. -/
theorem evalOption_skip (tables : List (String × Catalog)) (st : List ChoiceSlot × Nat)
    (kv : String × BuilderOption) (h : resolveValues tables kv.2 = none) :
    evalOption tables st kv = st := by
  unfold evalOption
  rw [h]

/-- Equation: an option whose slot is found refreshes it in place and counts
it iff its pre-existing `chosenValues` size equals the configured amount. -/
theorem evalOption_found (tables : List (String × Catalog)) (st : List ChoiceSlot × Nat)
    (kv : String × BuilderOption) (values : List String) (c : ChoiceSlot)
    (h : resolveValues tables kv.2 = some values)
    (hf : st.1.find? (fun c2 => c2.key == kv.1) = some c) :
    evalOption tables st kv =
      (updateFirst st.1 kv.1 (refreshSlot kv values (kv.2.amount.getD 1)),
       if c.chosenValues.length == kv.2.amount.getD 1 then st.2 + 1 else st.2) := by
  unfold evalOption
  rw [h, hf]

/-- Equation: an option without a pre-existing slot pushes a fresh slot with
empty `chosenValues` and does not touch the count. -/
theorem evalOption_new (tables : List (String × Catalog)) (st : List ChoiceSlot × Nat)
    (kv : String × BuilderOption) (values : List String)
    (h : resolveValues tables kv.2 = some values)
    (hf : st.1.find? (fun c2 => c2.key == kv.1) = none) :
    evalOption tables st kv =
      (st.1 ++ [{ key := kv.1, label := kv.2.label.getD kv.1, category := kv.2.category,
                  options := values, chosenValues := [],
                  amount := kv.2.amount.getD 1 }], st.2) := by
  unfold evalOption
  rw [h, hf]

/-- Equation: absent `builderInfo` short-circuits to fulfilled. -/
theorem evalTraitChoice_noBuilder (tables : List (String × Catalog)) (tc : TraitChoice)
    (h : tc.builderInfo = none) :
    evalTraitChoice tables tc = { tc with choicesFulfilled := true } := by
  obtain ⟨⟨tid, tname, tsrc, tsid, tcol, tinn, tbi⟩, tch, tful⟩ := tc
  dsimp only at h
  subst h
  rfl

/-- Equation: absent (falsy) `builderInfo.options` short-circuits to
fulfilled. -/
theorem evalTraitChoice_noOptions (tables : List (String × Catalog)) (tc : TraitChoice)
    (bi : BuilderInfo) (hbi : tc.builderInfo = some bi) (hopts : bi.options = none) :
    evalTraitChoice tables tc = { tc with choicesFulfilled := true } := by
  obtain ⟨⟨tid, tname, tsrc, tsid, tcol, tinn, tbi⟩, tch, tful⟩ := tc
  obtain ⟨bmode, bopts⟩ := bi
  dsimp only at hbi hopts
  subst hbi
  subst hopts
  rfl

/-- Equation: a present options object runs the loop and the mode switch. -/
theorem evalTraitChoice_opts (tables : List (String × Catalog)) (tc : TraitChoice)
    (bi : BuilderInfo) (opts : List (String × BuilderOption))
    (hbi : tc.builderInfo = some bi) (hopts : bi.options = some opts) :
    evalTraitChoice tables tc =
      { tc with
        toTrait := { tc.toTrait with
          builderInfo := some { bi with mode := some (defaultMode bi.mode) } },
        choices := (opts.foldl (evalOption tables) (tc.choices, 0)).1,
        choicesFulfilled := fulfillmentByMode (defaultMode bi.mode)
          (opts.foldl (evalOption tables) (tc.choices, 0)).2 opts.length
          tc.choicesFulfilled } := by
  obtain ⟨⟨tid, tname, tsrc, tsid, tcol, tinn, tbi⟩, tch, tful⟩ := tc
  obtain ⟨bmode, bopts⟩ := bi
  dsimp only at hbi hopts
  subst hbi
  subst hopts
  rfl

/-- Refreshing a slot by key never changes any slot's key or `chosenValues`,
so the `(key, chosenValues.size)` view of every lookup is unchanged. -/
theorem findLen_updateFirst (k k2 : String) (f : ChoiceSlot → ChoiceSlot)
    (hf : ∀ c, (f c).key = c.key ∧ (f c).chosenValues = c.chosenValues) :
    ∀ l : List ChoiceSlot, findLen (updateFirst l k f) k2 = findLen l k2 := by
  intro l
  induction l with
  | nil => rfl
  | cons c cs ih =>
    unfold updateFirst
    by_cases hck : (c.key == k) = true
    · rw [if_pos hck]
      unfold findLen
      rw [find?_cons_eq, find?_cons_eq]
      have hkey : ((f c).key == k2) = (c.key == k2) := by rw [(hf c).1]
      by_cases h2 : (c.key == k2) = true
      · rw [hkey, if_pos h2, if_pos h2]
        simp [(hf c).2]
      · rw [hkey, if_neg h2, if_neg h2]
    · rw [if_neg hck]
      unfold findLen
      rw [find?_cons_eq, find?_cons_eq]
      by_cases h2 : (c.key == k2) = true
      · rw [if_pos h2, if_pos h2]
      · rw [if_neg h2, if_neg h2]
        unfold findLen at ih
        exact ih

/-- Appending a slot whose key differs does not change a lookup's view. -/
theorem findLen_append_singleton (s : ChoiceSlot) (k2 : String)
    (hs : (s.key == k2) = false) :
    ∀ l : List ChoiceSlot, findLen (l ++ [s]) k2 = findLen l k2 := by
  intro l
  induction l with
  | nil =>
    unfold findLen
    rw [List.nil_append, find?_cons_eq, if_neg (by rw [hs]; exact Bool.false_ne_true)]
  | cons c cs ih =>
    unfold findLen
    rw [List.cons_append, find?_cons_eq, find?_cons_eq]
    by_cases h2 : (c.key == k2) = true
    · rw [if_pos h2, if_pos h2]
    · rw [if_neg h2, if_neg h2]
      unfold findLen at ih
      exact ih

/-- The options loop's `choicesMade` is exactly the number of options that
count against the PRE-RUN slot list: slots created during the run are never
counted (requires the option keys to be distinct, which `Object.entries`
guarantees). -/
theorem evalOptions_count (tables : List (String × Catalog)) :
    ∀ (opts : List (String × BuilderOption)) (cur choices0 : List ChoiceSlot) (n : Nat),
      (opts.map Prod.fst).Nodup →
      (∀ kv ∈ opts, findLen cur kv.1 = findLen choices0 kv.1) →
      (opts.foldl (evalOption tables) (cur, n)).2 =
        n + opts.countP (optionCounts tables choices0) := by
  intro opts
  induction opts with
  | nil =>
    intro cur choices0 n _ _
    simp
  | cons kv rest ih =>
    intro cur choices0 n hnd hfl
    rw [List.foldl_cons, List.countP_cons]
    have hndr : (rest.map Prod.fst).Nodup := (List.nodup_cons.mp (by simpa using hnd)).2
    have hknr : kv.1 ∉ rest.map Prod.fst := (List.nodup_cons.mp (by simpa using hnd)).1
    have hflkv := hfl kv (List.mem_cons_self kv rest)
    have hflr : ∀ kv2 ∈ rest, findLen cur kv2.1 = findLen choices0 kv2.1 := fun kv2 h =>
      hfl kv2 (List.mem_cons_of_mem kv h)
    cases hres : resolveValues tables kv.2 with
    | none =>
      have hsk : optionSkipped tables kv.2 = true := (resolveValues_none_iff tables kv.2).mp hres
      have hoc : optionCounts tables choices0 kv = false := by
        unfold optionCounts
        rw [hsk]
        rfl
      rw [evalOption_skip tables (cur, n) kv hres, ih cur choices0 n hndr hflr, hoc]
      simp
    | some values =>
      have hsk : optionSkipped tables kv.2 = false := by
        cases hb : optionSkipped tables kv.2
        · rfl
        · rw [(resolveValues_none_iff tables kv.2).mpr hb] at hres
          exact Option.noConfusion hres
      cases hfind : cur.find? (fun c2 => c2.key == kv.1) with
      | some c =>
        rw [evalOption_found tables (cur, n) kv values c hres hfind]
        have hflr' : ∀ kv2 ∈ rest,
            findLen (updateFirst cur kv.1 (refreshSlot kv values (kv.2.amount.getD 1))) kv2.1 =
            findLen choices0 kv2.1 := by
          intro kv2 h2
          rw [findLen_updateFirst kv.1 kv2.1 (refreshSlot kv values (kv.2.amount.getD 1))
            (fun c2 => ⟨rfl, rfl⟩) cur]
          exact hflr kv2 h2
        rw [ih _ choices0 _ hndr hflr']
        have hlenv : findLen choices0 kv.1 = some c.chosenValues.length := by
          rw [← hflkv]
          unfold findLen
          rw [hfind]
          rfl
        unfold findLen at hlenv
        cases hf0 : choices0.find? (fun c2 => c2.key == kv.1) with
        | none =>
          rw [hf0] at hlenv
          exact Option.noConfusion hlenv
        | some c0 =>
          rw [hf0] at hlenv
          have hc0 : c0.chosenValues.length = c.chosenValues.length := by
            simpa using hlenv
          have hoc : optionCounts tables choices0 kv =
              (c.chosenValues.length == kv.2.amount.getD 1) := by
            unfold optionCounts
            rw [hsk, hf0]
            show (c0.chosenValues.length == kv.2.amount.getD 1) = _
            rw [hc0]
          rw [hoc]
          cases hlen : (c.chosenValues.length == kv.2.amount.getD 1) <;> simp [hlen] <;> omega
      | none =>
        rw [evalOption_new tables (cur, n) kv values hres hfind]
        have hoc : optionCounts tables choices0 kv = false := by
          unfold optionCounts
          have hlenv : findLen choices0 kv.1 = none := by
            rw [← hflkv]
            unfold findLen
            rw [hfind]
            rfl
          unfold findLen at hlenv
          rw [hsk, Option.map_eq_none'.mp hlenv]
          rfl
        have hflr1 : ∀ s : ChoiceSlot, s.key = kv.1 → ∀ kv2 ∈ rest,
            findLen (cur ++ [s]) kv2.1 = findLen choices0 kv2.1 := by
          intro s hks kv2 h2
          have hne : (s.key == kv2.1) = false := by
            rw [hks, beq_eq_false_iff_ne]
            intro he
            exact hknr (he ▸ List.mem_map_of_mem Prod.fst h2)
          rw [findLen_append_singleton s kv2.1 hne cur]
          exact hflr kv2 h2
        rw [ih _ choices0 n hndr (hflr1 _ rfl), hoc]
        simp

/-- C10: a ChoiceSlot created during the current run never counts toward that
run's made-count — `choicesMade` equals the number of options whose slot
already existed (found by key) with `chosenValues.size` equal to the
configured amount — and consequently a TraitChoice with mode "ALL" and a
resolvable option whose slot does not yet exist is evaluated unfulfilled. -/
theorem c10_fresh_slots_uncounted (tables : List (String × Catalog)) (tc : TraitChoice)
    (bi : BuilderInfo) (opts : List (String × BuilderOption)) (kv : String × BuilderOption)
    (hbi : tc.builderInfo = some bi) (hopts : bi.options = some opts)
    (hmode : bi.mode = some "ALL") (hnd : (opts.map Prod.fst).Nodup)
    (hmem : kv ∈ opts) (hns : optionSkipped tables kv.2 = false)
    (hnew : tc.choices.find? (fun c => c.key == kv.1) = none) :
    (opts.foldl (evalOption tables) (tc.choices, 0)).2 =
      opts.countP (optionCounts tables tc.choices) ∧
    (evalTraitChoice tables tc).choicesFulfilled = false := by
  have hcount := evalOptions_count tables opts tc.choices tc.choices 0 hnd (fun _ _ => rfl)
  rw [Nat.zero_add] at hcount
  refine ⟨hcount, ?_⟩
  have hfalse : optionCounts tables tc.choices kv = false := by
    unfold optionCounts
    rw [hns, hnew]
    rfl
  have hne : opts.countP (optionCounts tables tc.choices) ≠ opts.length := by
    intro he
    have hall := List.countP_eq_length.mp he kv hmem
    rw [hfalse] at hall
    exact Bool.false_ne_true hall
  rw [evalTraitChoice_opts tables tc bi opts hbi hopts]
  show fulfillmentByMode (defaultMode bi.mode)
    (opts.foldl (evalOption tables) (tc.choices, 0)).2 opts.length tc.choicesFulfilled = false
  rw [hmode]
  show fulfillmentByMode "ALL"
    (opts.foldl (evalOption tables) (tc.choices, 0)).2 opts.length tc.choicesFulfilled = false
  unfold fulfillmentByMode
  rw [if_pos (show (("ALL" : String) == "ALL") = true from rfl), hcount]
  exact beq_eq_false_iff_ne.mpr hne

/-- Witness for C10 at `tcC10` (mode "ALL", one resolvable option whose slot
does not yet exist). -/
theorem c10_fresh_slots_uncounted_witness :
    (optsC10.foldl (evalOption tablesC10) (tcC10.choices, 0)).2 =
      optsC10.countP (optionCounts tablesC10 tcC10.choices) ∧
    (evalTraitChoice tablesC10 tcC10).choicesFulfilled = false :=
  c10_fresh_slots_uncounted tablesC10 tcC10
    { mode := some "ALL", options := some optsC10 } optsC10
    ("a", { valuesType := some "CAT" }) rfl rfl rfl (by decide) (by decide) rfl rfl

/-- C2: the evaluator defaults an unspecified mode to the lowercase string
"all", which matches no case of the switch (which tests "ALL"), so
`choicesFulfilled` keeps its prior value instead of being evaluated under ALL
semantics: on `tcC2` every option is made (made-count = option count = 1) yet
fulfillment stays `false`, while the same record with an explicit "ALL"
evaluates to `true`.  The code's own doc comment states the default is "ALL". -/
theorem c2_default_mode_divergence :
    (optsC2.foldl (evalOption []) (tcC2.choices, 0)).2 = optsC2.length ∧
    (evalTraitChoice [] tcC2).choicesFulfilled = false ∧
    ((evalTraitChoice [] tcC2).builderInfo.map BuilderInfo.mode) = some (some "all") ∧
    (evalTraitChoice [] tcC2all).choicesFulfilled = true :=
  ⟨rfl, rfl, rfl, rfl⟩

/-- C6 (amended): `choicesFulfilled` is set to true when `builderInfo` or its
`options` is absent (falsy); an empty options OBJECT is truthy in JS and takes
the general path instead (see the counterexample). -/
theorem c6_absent_options_fulfilled (tables : List (String × Catalog)) (tc : TraitChoice)
    (h : tc.builderInfo = none ∨ ∃ bi, tc.builderInfo = some bi ∧ bi.options = none) :
    (evalTraitChoice tables tc).choicesFulfilled = true := by
  rcases h with h | ⟨bi, hbi, hopt⟩
  · rw [evalTraitChoice_noBuilder tables tc h]
  · rw [evalTraitChoice_noOptions tables tc bi hbi hopt]

/-- Witness for C6 at a record with no builder configuration. -/
theorem c6_absent_options_fulfilled_witness :
    (evalTraitChoice [] { toTrait := { id := some "A" } }).choicesFulfilled = true :=
  c6_absent_options_fulfilled [] { toTrait := { id := some "A" } } (Or.inl rfl)

/-- C6 counterexample: a TraitChoice whose builder configuration carries an
EMPTY options object (and no mode) is NOT marked fulfilled — the truthy empty
object passes the `!builderInfo?.options` guard and the lowercase default
mode matches no switch case, so `choicesFulfilled` keeps its prior `false`;
this refutes "absent or empty (including an empty options object) → true". -/
theorem c6_empty_options_counterexample :
    (evalTraitChoice []
      { toTrait := { id := some "A",
                     builderInfo := some { mode := none, options := some [] } },
        choices := [], choicesFulfilled := false }).choicesFulfilled = false := rfl

/-- C1 counterexample: an unknown innate proficiency key IS logged and yields
no resolved advantage, but the `map`/`forEach` pipeline still adds the
`undefined` result to the set, so the final proficiency set is `{undefined}`,
not empty — the unknown key does contribute an entry to the resulting set. -/
theorem c1_unknown_innate_counterexample :
    prepareAdvantages inpC1 = some ⟨[none], [], [], []⟩ ∧
    ([none] : List (Option Advantage)) ≠ [] :=
  ⟨rfl, by decide⟩

/-- C5 counterexample: a trait granting the same innate proficiency twice
produces two structurally-identical entries in the final set — JS `Set`
identity is per object reference, so structural duplicates are NOT
collapsed. -/
theorem c5_structural_dup_counterexample :
    prepareAdvantages inpC5 = some ⟨[some advC5, some advC5], [], [], []⟩ ∧
    ¬ ([some advC5, some advC5] : List (Option Advantage)).Nodup :=
  ⟨rfl, by decide⟩

/-- `mapMOpt` succeeds when every element's computation does, and the output
elements are images of input elements. -/
theorem mapMOpt_total {α β : Type} (f : α → Option β) :
    ∀ l : List α, (∀ x ∈ l, (f x).isSome = true) →
      ∃ out, mapMOpt f l = some out ∧ ∀ y ∈ out, ∃ x ∈ l, f x = some y := by
  intro l
  induction l with
  | nil =>
    intro _
    exact ⟨[], rfl, by simp⟩
  | cons a as ih =>
    intro h
    obtain ⟨b, hb⟩ := Option.isSome_iff_exists.mp (h a (List.mem_cons_self a as))
    obtain ⟨out, hout, hmem⟩ := ih (fun x hx => h x (List.mem_cons_of_mem a hx))
    refine ⟨b :: out, ?_, ?_⟩
    · unfold mapMOpt
      rw [hb, hout, Option.some_bind, Option.some_bind]
    · intro y hy
      rcases List.mem_cons.mp hy with hy | hy
      · exact ⟨a, List.mem_cons_self a as, hy ▸ hb⟩
      · obtain ⟨x, hx, hfx⟩ := hmem y hy
        exact ⟨x, List.mem_cons_of_mem a hx, hfx⟩

/-- Members of a `Set#add` fold come from the prior members or the added
values. -/
theorem mem_foldl_jsSetAdd : ∀ (adds acc : List (Option Advantage)) (x : Option Advantage),
    x ∈ adds.foldl jsSetAdd acc → x ∈ acc ∨ x ∈ adds := by
  intro adds
  induction adds with
  | nil =>
    intro acc x hx
    exact Or.inl hx
  | cons y ys ih =>
    intro acc x hx
    rw [List.foldl_cons] at hx
    rcases ih (jsSetAdd acc y) x hx with h | h
    · cases y with
      | none =>
        unfold jsSetAdd at h
        by_cases hn : (acc.any fun e => e.isNone) = true
        · rw [if_pos hn] at h
          exact Or.inl h
        · rw [if_neg hn] at h
          rcases List.mem_append.mp h with h | h
          · exact Or.inl h
          · rw [List.mem_singleton] at h
            exact Or.inr (h ▸ List.mem_cons_self _ _)
      | some a =>
        unfold jsSetAdd at h
        rcases List.mem_append.mp h with h | h
        · exact Or.inl h
        · rw [List.mem_singleton] at h
          exact Or.inr (h ▸ List.mem_cons_self _ _)
    · exact Or.inr (List.mem_cons_of_mem y h)

/-- `mapInnate` never throws when the trait's color is well-formed. -/
theorem mapInnate_total (t : Trait) (types : Catalog) (k : String)
    (hc : (buildStyleString t.color).isSome = true) :
    (mapInnate t types k).isSome = true := by
  unfold mapInnate
  cases hl : lookupCat types k with
  | none => rfl
  | some cfg =>
    rw [Option.isSome_map']
    exact hc

/-- A defined `mapInnate` result that is an actual advantage has a value key
present in the catalog table. -/
theorem mapInnate_sound (t : Trait) (types : Catalog) (k : String) (y : Option Advantage)
    (h : mapInnate t types k = some y) :
    ∀ a k2, y = some a → a.value = AdvValue.catKey k2 →
      (lookupCat types k2).isSome = true := by
  intro a k2 hy hv
  subst hy
  unfold mapInnate at h
  cases hl : lookupCat types k with
  | none =>
    rw [hl] at h
    simp at h
  | some cfg =>
    rw [hl] at h
    cases hst : buildStyleString t.color with
    | none =>
      rw [hst] at h
      simp at h
    | some st =>
      rw [hst] at h
      simp only [Option.map_some', Option.some.injEq] at h
      have hval : AdvValue.catKey k = AdvValue.catKey k2 := by
        rw [← hv, ← h]
      have hk : k2 = k := by
        injection hval with h2
        exact h2.symm
      rw [hk, hl]
      rfl

/-- `mapChoiceValue` never throws when the record's color is well-formed. -/
theorem mapChoiceValue_total (tc : TraitChoice) (types : Catalog) (v : String)
    (hc : (buildStyleString tc.color).isSome = true) :
    (mapChoiceValue tc types v).isSome = true := by
  unfold mapChoiceValue
  cases hl : lookupCat types v with
  | none => rfl
  | some cfg =>
    rw [Option.isSome_map']
    exact hc

/-- A defined `mapChoiceValue` result that is an actual advantage has a value
key present in the catalog table. -/
theorem mapChoiceValue_sound (tc : TraitChoice) (types : Catalog) (v : String)
    (y : Option Advantage) (h : mapChoiceValue tc types v = some y) :
    ∀ a k2, y = some a → a.value = AdvValue.catKey k2 →
      (lookupCat types k2).isSome = true := by
  intro a k2 hy hv
  subst hy
  unfold mapChoiceValue at h
  cases hl : lookupCat types v with
  | none =>
    rw [hl] at h
    simp at h
  | some cfg =>
    rw [hl] at h
    cases hst : buildStyleString tc.color with
    | none =>
      rw [hst] at h
      simp at h
    | some st =>
      rw [hst] at h
      simp only [Option.map_some', Option.some.injEq] at h
      have hval : AdvValue.catKey v = AdvValue.catKey k2 := by
        rw [← hv, ← h]
      have hk : k2 = v := by
        injection hval with h2
        exact h2.symm
      rw [hk, hl]
      rfl

/-- A manual-tier advantage carries no style and never a key value. -/
theorem mapManualData_sound (types : Catalog) (v : StoredEntry) (a : Advantage)
    (h : mapManualData types v = some a) :
    a.style = none ∧ ∀ k, a.value = AdvValue.catKey k →
      (lookupCat types k).isSome = true := by
  unfold mapManualData at h
  cases hl : lookupCat types v.value with
  | none =>
    rw [hl] at h
    simp at h
  | some cfg =>
    rw [hl] at h
    simp only [Option.map_some', Option.some.injEq] at h
    constructor
    · rw [← h]
    · intro k hv
      rw [← h] at hv
      exact absurd hv (by simp)

/-- The innate tier succeeds for well-formed colors and only contributes
resolved entries (or the `undefined` placeholder) beyond the prior members. -/
theorem innateTier_spec (types : Catalog) (sel : Innate → List String) :
    ∀ (traits : List Trait) (acc : List (Option Advantage)),
      (∀ t ∈ traits, (buildStyleString t.color).isSome = true) →
      ∃ out, innateTier types sel traits acc = some out ∧
        ∀ x ∈ out, x ∈ acc ∨
          ∀ a k, x = some a → a.value = AdvValue.catKey k →
            (lookupCat types k).isSome = true := by
  intro traits
  induction traits with
  | nil =>
    intro acc _
    exact ⟨acc, rfl, fun x hx => Or.inl hx⟩
  | cons t ts ih =>
    intro acc hc
    obtain ⟨adds, hadds, haddmem⟩ := mapMOpt_total (mapInnate t types) (sel t.innate)
      (fun k _ => mapInnate_total t types k (hc t (List.mem_cons_self t ts)))
    obtain ⟨out, hout, hmem⟩ := ih (adds.foldl jsSetAdd acc)
      (fun t2 h2 => hc t2 (List.mem_cons_of_mem t h2))
    refine ⟨out, ?_, ?_⟩
    · unfold innateTier
      rw [hadds, Option.some_bind]
      exact hout
    · intro x hx
      rcases hmem x hx with h | h
      · rcases mem_foldl_jsSetAdd adds acc x h with h2 | h2
        · exact Or.inl h2
        · right
          obtain ⟨k, _, hfk⟩ := haddmem x h2
          exact fun a k2 hy hv => mapInnate_sound t types k x hfk a k2 hy hv
      · exact Or.inr h

/-- A defined `reduceTraitChoice` pushes only resolved entries. -/
theorem reduceTraitChoice_spec (tc : TraitChoice) (category : String) (types : Catalog)
    (hc : (buildStyleString tc.color).isSome = true) :
    ∃ adds, reduceTraitChoice tc category types = some adds ∧
      ∀ a ∈ adds, ∀ k, a.value = AdvValue.catKey k →
        (lookupCat types k).isSome = true := by
  obtain ⟨out, hout, hmem⟩ := mapMOpt_total (mapChoiceValue tc types)
    ((tc.choices.filter (fun c => c.category == some category)).flatMap
      (fun c => c.chosenValues))
    (fun v _ => mapChoiceValue_total tc types v hc)
  refine ⟨out.filterMap id, ?_, ?_⟩
  · unfold reduceTraitChoice
    rw [hout, Option.map_some']
  · intro a ha k hv
    obtain ⟨x, hx, hxa⟩ := List.mem_filterMap.mp ha
    obtain ⟨v, _, hfv⟩ := hmem x hx
    exact mapChoiceValue_sound tc types v x hfv a k hxa hv

/-- The choice tier succeeds for well-formed colors and only contributes
resolved entries beyond the prior members. -/
theorem choiceTier_spec (types : Catalog) (category : String) :
    ∀ (tcs : List TraitChoice) (acc : List (Option Advantage)),
      (∀ tc ∈ tcs, (buildStyleString tc.color).isSome = true) →
      ∃ out, choiceTier types category tcs acc = some out ∧
        ∀ x ∈ out, x ∈ acc ∨
          ∀ a k, x = some a → a.value = AdvValue.catKey k →
            (lookupCat types k).isSome = true := by
  intro tcs
  induction tcs with
  | nil =>
    intro acc _
    exact ⟨acc, rfl, fun x hx => Or.inl hx⟩
  | cons tc tcs2 ih =>
    intro acc hc
    obtain ⟨adds, hadds, haddmem⟩ := reduceTraitChoice_spec tc category types
      (hc tc (List.mem_cons_self tc tcs2))
    obtain ⟨out, hout, hmem⟩ := ih ((adds.map some).foldl jsSetAdd acc)
      (fun tc2 h2 => hc tc2 (List.mem_cons_of_mem tc h2))
    refine ⟨out, ?_, ?_⟩
    · unfold choiceTier
      rw [hadds, Option.some_bind]
      exact hout
    · intro x hx
      rcases hmem x hx with h | h
      · rcases mem_foldl_jsSetAdd (adds.map some) acc x h with h2 | h2
        · exact Or.inl h2
        · right
          obtain ⟨b, hb, hba⟩ := List.mem_map.mp h2
          intro a k hy hv
          have hab : b = a := by
            rw [hy] at hba
            injection hba
          exact haddmem b hb k (hab ▸ hv)
      · exact Or.inr h

/-- Equation: `buildStyleString` on a present color. -/
theorem buildStyleString_some (c : String) :
    buildStyleString (some c) =
      if (c == "") = true then some ""
      else if (wordPairs c.toList).isEmpty = true then none
      else
        some ("background-color: " ++ c ++ ";" ++ "color: " ++
          (match jsRGB c with
           | some (r, g, b) =>
             if (r * 299 + g * 587 + b * 114 + 500) / 1000 > 125 then "black" else "white"
           | none => "white") ++ ";") := rfl

/-- A resolved member of a finalized set was a member before the sort. -/
theorem mem_of_mem_finalize (l : List (Option Advantage)) (a : Advantage)
    (h : some a ∈ finalize l) : some a ∈ l := by
  unfold finalize at h
  rcases List.mem_append.mp h with h | h
  · obtain ⟨b, hb, hba⟩ := List.mem_map.mp h
    have hbl : b ∈ l.filterMap id :=
      (List.perm_insertionSort labelLE (l.filterMap id)).mem_iff.mp hb
    obtain ⟨x, hx, hxb⟩ := List.mem_filterMap.mp hbl
    have hxa : x = some a := by
      have h1 : x = some b := hxb
      have h2 : b = a := by injection hba
      rw [h1, h2]
    exact hxa ▸ hx
  · by_cases hn : (l.any fun e => e.isNone) = true
    · rw [if_pos hn, List.mem_singleton] at h
      exact absurd h (by simp)
    · rw [if_neg hn] at h
      exact absurd h (List.not_mem_nil _)

/-- The finalized set is the label-sorted resolved entries followed by the
`undefined` placeholder when one was present. -/
theorem finalize_shape (l : List (Option Advantage)) :
    ∃ xs t2, finalize l = xs.map some ++ t2 ∧ List.Sorted labelLE xs ∧
      (t2 = [] ∨ t2 = [none]) := by
  haveI : IsTotal Advantage labelLE := ⟨fun a b => strLE_total a.label b.label⟩
  haveI : IsTrans Advantage labelLE :=
    ⟨fun a b c h1 h2 => strLE_trans a.label b.label c.label h1 h2⟩
  refine ⟨(l.filterMap id).insertionSort labelLE,
    (if l.any (fun e => e.isNone) then [none] else []), rfl,
    List.sorted_insertionSort labelLE _, ?_⟩
  by_cases hn : (l.any fun e => e.isNone) = true
  · rw [if_pos hn]
    exact Or.inr rfl
  · rw [if_neg hn]
    exact Or.inl rfl

/-- A category build succeeds for resolvable manual entries and well-formed
colors, and every resolved member's key resolves in the catalog table. -/
theorem buildCategory_spec (types : Catalog) (manual : List StoredEntry)
    (traits : List Trait) (tcs : List TraitChoice) (sel : Innate → List String)
    (category : String)
    (hman : ∀ e ∈ manual, (lookupCat types e.value).isSome = true)
    (hcol : ∀ t ∈ traits, (buildStyleString t.color).isSome = true)
    (hcol2 : ∀ tc ∈ tcs, (buildStyleString tc.color).isSome = true) :
    ∃ out, buildCategory types manual traits tcs sel category = some out ∧
      ∀ a k, some a ∈ out → a.value = AdvValue.catKey k →
        (lookupCat types k).isSome = true := by
  obtain ⟨base, hbase, hbmem⟩ := mapMOpt_total (mapManualData types) manual
    (fun e he => by
      unfold mapManualData
      rw [Option.isSome_map']
      exact hman e he)
  obtain ⟨ai, hai, haimem⟩ := innateTier_spec types sel traits (base.map some) hcol
  obtain ⟨ac, hac, hacmem⟩ := choiceTier_spec types category tcs ai hcol2
  refine ⟨finalize ac, ?_, ?_⟩
  · unfold buildCategory
    rw [hbase, Option.some_bind, hai, Option.some_bind, hac, Option.some_bind]
  · intro a k hmem hv
    have hac2 : some a ∈ ac := mem_of_mem_finalize ac a hmem
    rcases hacmem (some a) hac2 with h | h
    · rcases haimem (some a) h with h2 | h2
      · obtain ⟨b, hb, hba⟩ := List.mem_map.mp h2
        obtain ⟨e, _, hfe⟩ := hbmem b hb
        have hbeq : b = a := by injection hba
        exact (mapManualData_sound types e b hfe).2 k (hbeq ▸ hv)
      · exact h2 a k rfl hv
    · exact h a k rfl hv

/-- A defined category build is a finalized set. -/
theorem buildCategory_shape (types : Catalog) (manual : List StoredEntry)
    (traits : List Trait) (tcs : List TraitChoice) (sel : Innate → List String)
    (category : String) (out : List (Option Advantage))
    (h : buildCategory types manual traits tcs sel category = some out) :
    ∃ l2, out = finalize l2 := by
  unfold buildCategory at h
  cases h1 : mapMOpt (mapManualData types) manual with
  | none =>
    rw [h1] at h
    simp at h
  | some base =>
    rw [h1, Option.some_bind] at h
    cases h2 : innateTier types sel traits (base.map some) with
    | none =>
      rw [h2] at h
      simp at h
    | some ai =>
      rw [h2, Option.some_bind] at h
      cases h3 : choiceTier types category tcs ai with
      | none =>
        rw [h3] at h
        simp at h
      | some ac =>
        rw [h3, Option.some_bind] at h
        refine ⟨ac, ?_⟩
        injection h with h4
        exact h4.symm

/-- C1 (amended): during advantage aggregation an unknown innate key is logged
and yields no RESOLVED entry — every resolved member of each final set carries
a value key present in the corresponding catalog table — derivation continues
and no exception propagates (the run is defined) whenever the manual entries
resolve and the trait/record colors are well-formed; the unknown key does,
however, leave the single `undefined` placeholder in the set (see the
counterexample). -/
theorem c1_unknown_innate_skipped (inp : AdvInputs)
    (hman1 : ∀ e ∈ inp.manualProficiencies, (lookupCat inp.profTypes e.value).isSome = true)
    (hman2 : ∀ e ∈ inp.manualResistances, (lookupCat inp.damageTypes e.value).isSome = true)
    (hman3 : ∀ e ∈ inp.manualLanguages, (lookupCat inp.langTypes e.value).isSome = true)
    (hman4 : ∀ e ∈ inp.manualSaveAdvantages, (lookupCat inp.saveTypes e.value).isSome = true)
    (hcol : ∀ t ∈ inp.traits, (buildStyleString t.color).isSome = true)
    (hcol2 : ∀ tc ∈ inp.traitChoices, (buildStyleString tc.color).isSome = true) :
    ∃ r, prepareAdvantages inp = some r ∧
      (∀ a k, some a ∈ r.proficiencies → a.value = AdvValue.catKey k →
        (lookupCat inp.profTypes k).isSome = true) ∧
      (∀ a k, some a ∈ r.resistances → a.value = AdvValue.catKey k →
        (lookupCat inp.damageTypes k).isSome = true) ∧
      (∀ a k, some a ∈ r.languages → a.value = AdvValue.catKey k →
        (lookupCat inp.langTypes k).isSome = true) ∧
      (∀ a k, some a ∈ r.saveAdvantages → a.value = AdvValue.catKey k →
        (lookupCat inp.saveTypes k).isSome = true) := by
  obtain ⟨p, hp, hpm⟩ := buildCategory_spec inp.profTypes inp.manualProficiencies inp.traits
    inp.traitChoices (fun i => i.proficiencies) "PROFICIENCY_TYPES" hman1 hcol hcol2
  obtain ⟨r2, hr, hrm⟩ := buildCategory_spec inp.damageTypes inp.manualResistances inp.traits
    inp.traitChoices (fun i => i.resistances) "DAMAGE_TYPES" hman2 hcol hcol2
  obtain ⟨lg, hl, hlm⟩ := buildCategory_spec inp.langTypes inp.manualLanguages inp.traits
    inp.traitChoices (fun i => i.languages) "LANGUAGE_TYPES" hman3 hcol hcol2
  obtain ⟨sv, hs, hsm⟩ := buildCategory_spec inp.saveTypes inp.manualSaveAdvantages inp.traits
    inp.traitChoices (fun i => i.saveAdvantages) "SAVE_TYPES" hman4 hcol hcol2
  refine ⟨⟨p, r2, lg, sv⟩, ?_, hpm, hrm, hlm, hsm⟩
  unfold prepareAdvantages
  rw [hp, Option.some_bind, hr, Option.some_bind, hl, Option.some_bind, hs,
    Option.some_bind]

/-- Witness for C1 at `inpC1` (one unknown innate proficiency key). -/
theorem c1_unknown_innate_skipped_witness :
    ∃ r, prepareAdvantages inpC1 = some r ∧
      (∀ a k, some a ∈ r.proficiencies → a.value = AdvValue.catKey k →
        (lookupCat inpC1.profTypes k).isSome = true) ∧
      (∀ a k, some a ∈ r.resistances → a.value = AdvValue.catKey k →
        (lookupCat inpC1.damageTypes k).isSome = true) ∧
      (∀ a k, some a ∈ r.languages → a.value = AdvValue.catKey k →
        (lookupCat inpC1.langTypes k).isSome = true) ∧
      (∀ a k, some a ∈ r.saveAdvantages → a.value = AdvValue.catKey k →
        (lookupCat inpC1.saveTypes k).isSome = true) :=
  c1_unknown_innate_skipped inpC1 (by decide) (by decide) (by decide) (by decide)
    (by decide) (by decide)

/-- C5 (amended): each final set's iteration order is ascending by label among
its resolved entries, with the `undefined` placeholder (if present) at the
end; structurally-identical entries are NOT collapsed (JS `Set` identity is
per object reference, see the counterexample). -/
theorem c5_sets_sorted (inp : AdvInputs) (r : AdvantageSets)
    (h : prepareAdvantages inp = some r) :
    (∃ xs t2, r.proficiencies = xs.map some ++ t2 ∧ List.Sorted labelLE xs ∧
      (t2 = [] ∨ t2 = [none])) ∧
    (∃ xs t2, r.resistances = xs.map some ++ t2 ∧ List.Sorted labelLE xs ∧
      (t2 = [] ∨ t2 = [none])) ∧
    (∃ xs t2, r.languages = xs.map some ++ t2 ∧ List.Sorted labelLE xs ∧
      (t2 = [] ∨ t2 = [none])) ∧
    (∃ xs t2, r.saveAdvantages = xs.map some ++ t2 ∧ List.Sorted labelLE xs ∧
      (t2 = [] ∨ t2 = [none])) := by
  unfold prepareAdvantages at h
  cases h1 : buildCategory inp.profTypes inp.manualProficiencies inp.traits inp.traitChoices
      (fun i => i.proficiencies) "PROFICIENCY_TYPES" with
  | none =>
    rw [h1] at h
    simp at h
  | some p =>
    rw [h1, Option.some_bind] at h
    cases h2 : buildCategory inp.damageTypes inp.manualResistances inp.traits
        inp.traitChoices (fun i => i.resistances) "DAMAGE_TYPES" with
    | none =>
      rw [h2] at h
      simp at h
    | some r2 =>
      rw [h2, Option.some_bind] at h
      cases h3 : buildCategory inp.langTypes inp.manualLanguages inp.traits inp.traitChoices
          (fun i => i.languages) "LANGUAGE_TYPES" with
      | none =>
        rw [h3] at h
        simp at h
      | some lg =>
        rw [h3, Option.some_bind] at h
        cases h4 : buildCategory inp.saveTypes inp.manualSaveAdvantages inp.traits
            inp.traitChoices (fun i => i.saveAdvantages) "SAVE_TYPES" with
        | none =>
          rw [h4] at h
          simp at h
        | some sv =>
          rw [h4, Option.some_bind] at h
          have hreq : r = ⟨p, r2, lg, sv⟩ := by
            injection h with h5
            exact h5.symm
          have hpp : r.proficiencies = p := by rw [hreq]
          have hrr : r.resistances = r2 := by rw [hreq]
          have hll : r.languages = lg := by rw [hreq]
          have hss : r.saveAdvantages = sv := by rw [hreq]
          obtain ⟨l1, hl1⟩ := buildCategory_shape _ _ _ _ _ _ p h1
          obtain ⟨l2, hl2⟩ := buildCategory_shape _ _ _ _ _ _ r2 h2
          obtain ⟨l3, hl3⟩ := buildCategory_shape _ _ _ _ _ _ lg h3
          obtain ⟨l4, hl4⟩ := buildCategory_shape _ _ _ _ _ _ sv h4
          refine ⟨?_, ?_, ?_, ?_⟩
          · rw [hpp, hl1]
            exact finalize_shape l1
          · rw [hrr, hl2]
            exact finalize_shape l2
          · rw [hll, hl3]
            exact finalize_shape l3
          · rw [hss, hl4]
            exact finalize_shape l4

/-- Witness for C5 at `inpC5`. -/
theorem c5_sets_sorted_witness :
    (∃ xs t2, ([some advC5, some advC5] : List (Option Advantage)) = xs.map some ++ t2 ∧
      List.Sorted labelLE xs ∧ (t2 = [] ∨ t2 = [none])) ∧
    (∃ xs t2, ([] : List (Option Advantage)) = xs.map some ++ t2 ∧
      List.Sorted labelLE xs ∧ (t2 = [] ∨ t2 = [none])) ∧
    (∃ xs t2, ([] : List (Option Advantage)) = xs.map some ++ t2 ∧
      List.Sorted labelLE xs ∧ (t2 = [] ∨ t2 = [none])) ∧
    (∃ xs t2, ([] : List (Option Advantage)) = xs.map some ++ t2 ∧
      List.Sorted labelLE xs ∧ (t2 = [] ∨ t2 = [none])) :=
  c5_sets_sorted inpC5 ⟨[some advC5, some advC5], [], [], []⟩ rfl

/-- C9: for an innate- or choice-tier advantage entry whose owning trait has a
parseable hex color, the style string is exactly the background color plus a
foreground that is black iff `round((R*299 + G*587 + B*114) / 1000) > 125` and
white otherwise — in particular `#FFFFFF` yields black and `#000000` yields
white — and manual-tier entries never carry a style. -/
theorem c9_style_derivation :
    (∀ c r g b, jsRGB c = some (r, g, b) →
      buildStyleString (some c) =
        some ("background-color: " ++ c ++ ";" ++ "color: " ++
          (if (r * 299 + g * 587 + b * 114 + 500) / 1000 > 125 then "black" else "white")
          ++ ";")) ∧
    (∀ t types k a, mapInnate t types k = some (some a) →
      a.style = buildStyleString t.color) ∧
    (∀ tc types v a, mapChoiceValue tc types v = some (some a) →
      a.style = buildStyleString tc.color) ∧
    (∀ types e a, mapManualData types e = some a → a.style = none) ∧
    buildStyleString (some "#FFFFFF") = some "background-color: #FFFFFF;color: black;" ∧
    buildStyleString (some "#000000") = some "background-color: #000000;color: white;" := by
  refine ⟨?_, ?_, ?_, ?_, by decide, by decide⟩
  · intro c r g b h
    have hc : (c == "") = false := by
      rw [beq_eq_false_iff_ne]
      intro he
      rw [he, show jsRGB "" = none from rfl] at h
      exact Option.noConfusion h
    have hp : (wordPairs c.toList).isEmpty = false := by
      cases hwp : wordPairs c.toList with
      | nil =>
        unfold jsRGB at h
        rw [hwp] at h
        simp at h
      | cons q qs => rfl
    rw [buildStyleString_some, hc, if_neg Bool.false_ne_true, hp,
      if_neg Bool.false_ne_true, h]
  · intro t types k a h
    unfold mapInnate at h
    cases hl : lookupCat types k with
    | none =>
      rw [hl] at h
      simp at h
    | some cfg =>
      rw [hl] at h
      cases hst : buildStyleString t.color with
      | none =>
        rw [hst] at h
        simp at h
      | some st =>
        rw [hst] at h
        simp only [Option.map_some', Option.some.injEq] at h
        rw [← h]
  · intro tc types v a h
    unfold mapChoiceValue at h
    cases hl : lookupCat types v with
    | none =>
      rw [hl] at h
      simp at h
    | some cfg =>
      rw [hl] at h
      cases hst : buildStyleString tc.color with
      | none =>
        rw [hst] at h
        simp at h
      | some st =>
        rw [hst] at h
        simp only [Option.map_some', Option.some.injEq] at h
        rw [← h]
  · intro types e a h
    exact (mapManualData_sound types e a h).1

/-- Witness for C9 at the color "#202020" (brightness 32, foreground white). -/
theorem c9_style_derivation_witness :
    jsRGB "#202020" = some (32, 32, 32) ∧
    buildStyleString (some "#202020") =
      some ("background-color: " ++ "#202020" ++ ";" ++ "color: " ++
        (if (32 * 299 + 32 * 587 + 32 * 114 + 500) / 1000 > 125 then "black" else "white")
        ++ ";") :=
  ⟨by decide, c9_style_derivation.1 "#202020" 32 32 32 (by decide)⟩

end BlackFlag
